import Mathlib

/-!
Verification of the ansel photo-management data/state layer.

The development shallowly embeds:
  * the coalescing PhotoWork update queue of the controller module
    (updatePhotoWork, toggleFlag, setPhotosFlagged, storeFlagged) as a
    labelled transition system over an explicit system state that records
    the pendingUpdates registry, the outstanding fetches, and logs of the
    externally visible effects (fetchPhotoWork, store dispatches,
    storePhotoWork, onThumnailChange, flag-column saves);
  * the detail reducer (reducers/detail) as a pure function;
  * the CHANGE_PHOTOS branch of the sections reducer (reducers/data.ts)
    with an explicit heap for the photoIds arrays, since that branch
    aliases and splices arrays of the previous state;
  * the recursive directory walker (lib/walker.js) over a file-system tree.
-/

namespace Ansel

/-- Modelled from the spec: the PhotoWork record (common/models/Photo is not
part of the reviewed files). The spec describes it as a mapping from
edit-operation name to edit-operation parameters (opaque to the queue)
plus an optional boolean-like flagged marker. The flagged field is
Option Bool: none models an absent JS property, some b a present boolean,
so that deep equality distinguishes an absent property from a false one. -/
structure PhotoWork where
  flagged : Option Bool
  edits : List (String × Int)
deriving DecidableEq

/-- Modelled from the spec and from the fields the reviewed files read:
photo.id (dispatch and thumbnail key), photo.master (the photo path used as
the sole queue key), photo.flag (the denormalized flag column, a 0/1
number in the database). -/
structure PhotoType where
  id : Nat
  master : String
  flag : Nat
deriving DecidableEq

/-- Truthiness of an optional boolean JS property: only a present true is truthy. -/
def truthy : Option Bool → Bool
  | some true => true
  | _ => false

/-- A queued mutation function. In the source a mutation mutates the fetched
PhotoWork in place; it is embedded as an endofunction on PhotoWork. -/
def Mut : Type := PhotoWork → PhotoWork

/-- One entry of the pendingUpdates registry: the photo of the first request
and the FIFO list of queued mutation functions. -/
structure PendingUpdate where
  photoId : Nat
  updates : List Mut

/-- Store dispatches the controller issues.  changePhotoWork carries the
photo id and the PhotoWork pushed by updatePhotoWork; changePhotosFetched
records the changePhotosAction of toggleFlag, which rebroadcasts the record
re-fetched from the database for the given photo id (the database contents
are external, so only the id is recorded); changePhotos carries the photo
records setPhotosFlagged rebroadcasts. -/
inductive Dispatch where
  | changePhotoWork (photoId : Nat) (photoWork : PhotoWork)
  | changePhotosFetched (photoId : Nat)
  | changePhotos (photos : List PhotoType)

/-- Look up the pendingUpdates registry (a JS object keyed by photo path,
embedded as an association list). -/
def lookupPU : List (String × PendingUpdate) → String → Option PendingUpdate
  | [], _ => none
  | (k, v) :: rest, key => if k = key then some v else lookupPU rest key

/-- Replace the entry of a key that is already registered (the source pushes
onto the updates array of the registered object in place). -/
def setPU : List (String × PendingUpdate) → String → PendingUpdate → List (String × PendingUpdate)
  | [], _, _ => []
  | (k, v) :: rest, key, nv => if k = key then (k, nv) :: rest else (k, v) :: setPU rest key nv

/-- Remove a key from the registry (the JS delete operator). -/
def removePU : List (String × PendingUpdate) → String → List (String × PendingUpdate)
  | [], _ => []
  | (k, v) :: rest, key => if k = key then removePU rest key else (k, v) :: removePU rest key

/-- Occurrences of a path in a list (used for the outstanding-fetch count). -/
def countS : List String → String → Nat
  | [], _ => 0
  | x :: rest, p => (if x = p then 1 else 0) + countS rest p

/-- Remove the first occurrence of a path (settling one outstanding fetch). -/
def eraseS : List String → String → List String
  | [], _ => []
  | x :: rest, p => if x = p then rest else x :: eraseS rest p

/-- The whole system state of the controller module: the pendingUpdates
registry, the multiset of outstanding fetchPhotoWork calls, and append-only
logs of every externally visible effect. -/
structure SysState where
  pendingUpdates : List (String × PendingUpdate)
  inFlight : List String
  fetchLog : List String
  dispatchLog : List Dispatch
  storeLog : List (String × PhotoWork)
  thumbLog : List Nat
  saveFlagLog : List (Nat × Bool)

/-- The initial state: empty registry, nothing in flight, empty logs. -/
def initState : SysState :=
  { pendingUpdates := [], inFlight := [], fetchLog := [], dispatchLog := [],
    storeLog := [], thumbLog := [], saveFlagLog := [] }

/-- Apply the queued mutation functions in arrival (FIFO) order. -/
def applyUpdates (photoWork : PhotoWork) (updates : List Mut) : PhotoWork :=
  updates.foldl (fun w up => up w) photoWork

/-- The flagged normalization of updatePhotoWork: if the post-mutation
PhotoWork has a truthy flagged, force flagged on the pre-mutation copy,
otherwise delete flagged from the copy. -/
def normalizeBefore (fetched after : PhotoWork) : PhotoWork :=
  if truthy after.flagged then { fetched with flagged := some true }
  else { fetched with flagged := none }

/-- Structural deep equality (the fast-deep-equal collaborator). -/
def isDeepEqual (a b : PhotoWork) : Bool := decide (a = b)

/-- The thumbnailNeedsUpdate decision of updatePhotoWork: deep inequality of
the flag-normalized pre-mutation copy and the post-mutation PhotoWork. -/
def thumbnailNeedsUpdate (fetched after : PhotoWork) : Bool :=
  !(isDeepEqual (normalizeBefore fetched after) after)

/-- Events of the transition system: a requestUpdate (updatePhotoWork) call,
the resolution of the outstanding fetchPhotoWork of a path with a fetched
PhotoWork, or its rejection.  JavaScript is single threaded, so the whole
body of the then (respectively catch) callback runs atomically and each
event is one step. -/
inductive Event where
  | req (photo : PhotoType) (mutate : Mut)
  | resolve (photoPath : String) (photoWork : PhotoWork)
  | reject (photoPath : String)

/-- The photo path an event concerns. -/
def Event.path : Event → String
  | .req photo _ => photo.master
  | .resolve p _ => p
  | .reject p => p

/-- One step of the coalescing queue, a direct translation of
updatePhotoWork: a req with a registered path appends the mutation to that
entry's queue; a req with an unregistered path registers a fresh entry and
issues a fetch; a resolution applies the queue FIFO, deletes the entry,
dispatches the changePhotoWorkAction, issues storePhotoWork and, when the
thumbnail decision fires, onThumnailChange; a rejection deletes the entry
and issues none of these effects.  A resolution or rejection of a path with
no outstanding fetch cannot occur in the source (each issued fetch settles
exactly once) and leaves the state unchanged apart from the bookkeeping of
inFlight. -/
def step (s : SysState) (e : Event) : SysState :=
  match e with
  | .req photo mutate =>
    match lookupPU s.pendingUpdates photo.master with
    | some pu =>
      { s with pendingUpdates :=
          setPU s.pendingUpdates photo.master { pu with updates := pu.updates ++ [mutate] } }
    | none =>
      { s with
        pendingUpdates :=
          s.pendingUpdates ++ [(photo.master, { photoId := photo.id, updates := [mutate] })],
        inFlight := s.inFlight ++ [photo.master],
        fetchLog := s.fetchLog ++ [photo.master] }
  | .resolve photoPath photoWork =>
    if photoPath ∈ s.inFlight then
      match lookupPU s.pendingUpdates photoPath with
      | some pu =>
        let after := applyUpdates photoWork pu.updates
        { s with
          pendingUpdates := removePU s.pendingUpdates photoPath,
          inFlight := eraseS s.inFlight photoPath,
          dispatchLog := s.dispatchLog ++ [.changePhotoWork pu.photoId after],
          storeLog := s.storeLog ++ [(photoPath, after)],
          thumbLog := s.thumbLog ++
            (if thumbnailNeedsUpdate photoWork after then [pu.photoId] else []) }
      | none => { s with inFlight := eraseS s.inFlight photoPath }
    else s
  | .reject photoPath =>
    if photoPath ∈ s.inFlight then
      { s with
        pendingUpdates := removePU s.pendingUpdates photoPath,
        inFlight := eraseS s.inFlight photoPath }
    else s

/-- Run a list of events. -/
def execList (s : SysState) (es : List Event) : SysState := es.foldl step s

/-- The states the system can reach from the initial state. -/
inductive Reachable : SysState → Prop where
  | init : Reachable initState
  | next (s : SysState) (e : Event) : Reachable s → Reachable (step s e)

/-- The mutation function storeFlagged queues: set the flagged marker or
delete it. -/
def flagMutation (newFlagged : Bool) : Mut :=
  fun w => if newFlagged then { w with flagged := some true } else { w with flagged := none }

/-- storeFlagged routes the flag change through updatePhotoWork. -/
def storeFlagged (photo : PhotoType) (newFlagged : Bool) (s : SysState) : SysState :=
  step s (.req photo (flagMutation newFlagged))

/-- toggleFlag: negate the denormalized flag column (a 0/1 number, so JS
negation tests for 0), route the change through updatePhotoWork via
storeFlagged, persist the flag column with a patch save, then re-fetch the
photo record and rebroadcast it with changePhotosAction. -/
def toggleFlag (photo : PhotoType) (s : SysState) : SysState :=
  let newFlagged := photo.flag == 0
  let s1 := storeFlagged photo newFlagged s
  { s1 with
    saveFlagLog := s1.saveFlagLog ++ [(photo.id, newFlagged)],
    dispatchLog := s1.dispatchLog ++ [.changePhotosFetched photo.id] }

/-- setPhotosFlagged: for each photo in order, route the flag change through
updatePhotoWork via storeFlagged and persist the flag column; afterwards
rebroadcast all the photos with the flag column set to 1 or 0 through one
changePhotosAction. -/
def setPhotosFlagged (photos : List PhotoType) (flag : Bool) (s : SysState) : SysState :=
  let s1 := photos.foldl
    (fun acc photo =>
      let acc1 := storeFlagged photo flag acc
      { acc1 with saveFlagLog := acc1.saveFlagLog ++ [(photo.id, flag)] }) s
  { s1 with dispatchLog :=
      s1.dispatchLog ++ [.changePhotos (photos.map fun p => { p with flag := if flag then 1 else 0 })] }

/-- The registry and fetch invariant: the registry holds at most one entry
per photo path (its keys are pairwise distinct), at most one fetch per path
is outstanding, and an entry is registered for a path exactly while a fetch
of that path is outstanding. -/
def Inv (s : SysState) : Prop :=
  (s.pendingUpdates.map Prod.fst).Nodup ∧
    ∀ p : String, countS s.inFlight p ≤ 1 ∧
      ((lookupPU s.pendingUpdates p).isSome ↔ countS s.inFlight p = 1)

end Ansel

namespace AnselDetail

open Ansel (PhotoWork)

/-- The UI fetch states the detail reducer stores. -/
inductive FetchState where
  | idle
  | fetching
  | failure
deriving DecidableEq

/-- Modelled from the usage in the reviewed files: a PhotoDetail holds the
versions and tags of the shown photo. -/
structure PhotoDetail where
  versions : List Nat
  tags : List String
deriving DecidableEq

/-- The currentPhoto record of a non-null detail state. -/
structure CurrentPhoto where
  fetchState : FetchState
  sectionId : String
  photoIndex : Nat
  photoId : Nat
  photoDetail : Option PhotoDetail
  photoWork : Option PhotoWork
deriving DecidableEq

/-- A non-null detail state; the reducer's DetailState is Option of this. -/
structure DetailState where
  showDiff : Bool
  currentPhoto : CurrentPhoto
deriving DecidableEq

/-- The actions the detail reducer matches on, with the payload fields it
reads; other is the default branch for every other action type. -/
inductive DetailAction where
  | setDetailPhotoRequest (sectionId : String) (photoIndex : Nat) (photoId : Nat)
  | setDetailPhotoSuccess (photoDetail : PhotoDetail) (photoWork : PhotoWork)
  | setDetailPhotoFailure
  | setPhotoTags (photoId : Nat) (tags : List String)
  | changePhotoWork (photoId : Nat) (photoWork : PhotoWork)
  | fetchSectionsSuccess
  | fetchSectionsFailure
  | closeDetail
  | changePhotos (updateTrashed : Option Bool)
  | emptyTrash (trashedPhotoIds : List Nat)
  | openDiff
  | closeDiff
  | other

/-- The detail reducer.  The spread of action.payload.photoWork in the
CHANGE_PHOTOWORK branch builds a fresh shallow copy of the payload; in this
value-level embedding a copy is the value itself.  The
SET_DETAIL_PHOTO_SUCCESS, SET_DETAIL_PHOTO_FAILURE, OPEN_DIFF and
CLOSE_DIFF branches of the source dereference (or spread) a state they
assume non-null — those actions are dispatched only while a detail view is
open — so the embedding returns none for a none state there. -/
def detail (state : Option DetailState) (action : DetailAction) : Option DetailState :=
  match action with
  | .setDetailPhotoRequest sectionId photoIndex photoId =>
    some { showDiff := false,
           currentPhoto := { fetchState := .fetching, sectionId, photoIndex, photoId,
                             photoDetail := none, photoWork := none } }
  | .setDetailPhotoSuccess photoDetail photoWork =>
    match state with
    | some st => some { st with currentPhoto :=
        { st.currentPhoto with fetchState := .idle,
                               photoDetail := some photoDetail, photoWork := some photoWork } }
    | none => none
  | .setDetailPhotoFailure =>
    match state with
    | some st => some { st with currentPhoto := { st.currentPhoto with fetchState := .failure } }
    | none => none
  | .setPhotoTags photoId tags =>
    match state with
    | some st =>
      match st.currentPhoto.photoDetail with
      | some pd =>
        if st.currentPhoto.photoId = photoId then
          some { st with currentPhoto :=
            { st.currentPhoto with photoDetail := some { pd with tags := tags } } }
        else some st
      | none => some st
    | none => none
  | .changePhotoWork photoId photoWork =>
    match state with
    | some st =>
      if st.currentPhoto.photoId = photoId then
        some { st with currentPhoto := { st.currentPhoto with photoWork := some photoWork } }
      else some st
    | none => none
  | .fetchSectionsSuccess => none
  | .fetchSectionsFailure => none
  | .closeDetail => none
  | .changePhotos updateTrashed =>
    match state with
    | some st => if updateTrashed.isSome then none else some st
    | none => none
  | .emptyTrash trashedPhotoIds =>
    match state with
    | some st => if st.currentPhoto.photoId ∈ trashedPhotoIds then none else some st
    | none => none
  | .openDiff =>
    match state with
    | some st => some { st with showDiff := true }
    | none => none
  | .closeDiff =>
    match state with
    | some st => some { st with showDiff := false }
    | none => none
  | .other => state

end AnselDetail

namespace AnselData

open Ansel (PhotoType)

/-- Addresses of JS array objects: the photoIds arrays of the sections
state are aliased and spliced in place by the CHANGE_PHOTOS branch, so they
are embedded as references into an explicit heap. -/
abbrev Addr := Nat

/-- The heap of photoIds arrays. -/
abbrev Heap := Addr → List Nat

/-- Write one heap cell. -/
def heapSet (h : Heap) (a : Addr) (v : List Nat) : Heap :=
  fun x => if x = a then v else h x

/-- Read a JS object used as a map (association list, first binding wins). -/
def jsGet {κ α : Type} [DecidableEq κ] : List (κ × α) → κ → Option α
  | [], _ => none
  | (k, v) :: rest, key => if k = key then some v else jsGet rest key

/-- Overwrite a key's binding in a JS object used as a map. -/
def jsSet {κ α : Type} [DecidableEq κ] : List (κ × α) → κ → α → List (κ × α)
  | [], _, _ => []
  | (k, v) :: rest, key, nv => if k = key then (k, nv) :: rest else (k, v) :: jsSet rest key nv

/-- A photo section of the sections state.  photoIds is the address of the
section's photoIds array in the heap; photoData is the map from photo id to
photo record (none when the section's photos were forgotten or never
fetched — the CHANGE_PHOTOS branch then skips the section). -/
structure PhotoSection where
  id : String
  title : String
  count : Int
  photoIds : Addr
  photoData : Option (List (Nat × PhotoType))

/-- The library fetch states stored next to the sections. -/
inductive SecFetchState where
  | idle
  | fetching
  | failure
deriving DecidableEq

/-- The sections slice of the data state. -/
structure SectionsState where
  fetchState : SecFetchState
  totalPhotoCount : Option Int
  photoCount : Int
  ids : List String
  byId : List (String × PhotoSection)

/-- JS decrement of the possibly-null totalPhotoCount: the source applies
the decrement operator to a value that may be null, which JS coerces to 0
before subtracting. -/
def decTotal : Option Int → Option Int
  | some v => some (v - 1)
  | none => some (-1)

/-- The accumulator of the inner per-photo loop of the CHANGE_PHOTOS
branch: the heap, the running counters, and the newSection local (none
while no updated photo matched this section). -/
structure ChangeScan where
  heap : Heap
  totalPhotoCount : Option Int
  photoCount : Int
  newSection : Option PhotoSection

/-- One iteration of the inner loop of the CHANGE_PHOTOS branch for one
updated photo: on the first match the source shallow-copies photoData and
the section — the copy of the section shares the photoIds array (here: the
address) with the previous state's section.  When the trashed column
changed, the source splices the shared photoIds array in place in the heap
and decrements the counters; otherwise it overwrites the photo's binding in
the copied photoData. -/
def scanUpdatedPhoto (updateTrashed : Option Bool) (origData : List (Nat × PhotoType))
    (origSection : PhotoSection) (acc : ChangeScan) (updatedPhoto : PhotoType) : ChangeScan :=
  match jsGet origData updatedPhoto.id with
  | none => acc
  | some prevPhoto =>
    let acc1 :=
      match acc.newSection with
      | some _ => acc
      | none => { acc with newSection := some { origSection with photoData := some origData } }
    match acc1.newSection with
    | none => acc1
    | some ns =>
      if updateTrashed.isSome then
        let ids := acc1.heap ns.photoIds
        let acc2 :=
          match ids.findIdx? (fun x => x == prevPhoto.id) with
          | some i =>
            { acc1 with heap := heapSet acc1.heap ns.photoIds (ids.take i ++ ids.drop (i + 1)) }
          | none => acc1
        let acc3 :=
          if updateTrashed = some true then
            { acc2 with totalPhotoCount := decTotal acc2.totalPhotoCount }
          else acc2
        { acc3 with newSection := some { ns with count := ns.count - 1 },
                    photoCount := acc3.photoCount - 1 }
      else
        let data2 := jsSet (ns.photoData.getD origData) updatedPhoto.id updatedPhoto
        { acc1 with newSection := some { ns with photoData := some data2 } }

/-- The inner loop of the CHANGE_PHOTOS branch over the updated photos of
one section; sections without photoData are skipped. -/
def scanSection (updateTrashed : Option Bool) (updatedPhotos : List PhotoType)
    (heap : Heap) (total : Option Int) (pc : Int) (origSection : PhotoSection) : ChangeScan :=
  match origSection.photoData with
  | some origData =>
    updatedPhotos.foldl (scanUpdatedPhoto updateTrashed origData origSection)
      { heap := heap, totalPhotoCount := total, photoCount := pc, newSection := none }
  | none => { heap := heap, totalPhotoCount := total, photoCount := pc, newSection := none }

/-- The accumulator of the outer per-section loop of the CHANGE_PHOTOS
branch. -/
structure ChangeAcc where
  heap : Heap
  totalPhotoCount : Option Int
  photoCount : Int
  newSectionIds : List String
  newSectionById : List (String × PhotoSection)

/-- One iteration of the outer loop of the CHANGE_PHOTOS branch: scan one
section and keep it unless a copy was made whose (possibly spliced)
photoIds array became empty.  The source indexes state.byId with an id of
state.ids, which is always registered; an unregistered id would make the
source throw, and is embedded as a skip. -/
def changePhotosSection (updateTrashed : Option Bool) (updatedPhotos : List PhotoType)
    (byId : List (String × PhotoSection)) (acc : ChangeAcc) (sectionId : String) : ChangeAcc :=
  match jsGet byId sectionId with
  | none => acc
  | some sec =>
    let scan := scanSection updateTrashed updatedPhotos acc.heap acc.totalPhotoCount acc.photoCount sec
    let keep : Option PhotoSection :=
      match scan.newSection with
      | none => some sec
      | some ns => if (scan.heap ns.photoIds).length ≠ 0 then some ns else none
    match keep with
    | some kept =>
      { heap := scan.heap, totalPhotoCount := scan.totalPhotoCount, photoCount := scan.photoCount,
        newSectionIds := acc.newSectionIds ++ [sectionId],
        newSectionById := acc.newSectionById ++ [(sectionId, kept)] }
    | none =>
      { heap := scan.heap, totalPhotoCount := scan.totalPhotoCount, photoCount := scan.photoCount,
        newSectionIds := acc.newSectionIds, newSectionById := acc.newSectionById }

/-- The CHANGE_PHOTOS branch of the sections reducer, returning the heap
after the branch together with the new state.  updateTrashed is
action.payload.update.trashed (none for an absent property). -/
def sectionsChangePhotos (heap : Heap) (st : SectionsState) (updatedPhotos : List PhotoType)
    (updateTrashed : Option Bool) : Heap × SectionsState :=
  let acc := st.ids.foldl (changePhotosSection updateTrashed updatedPhotos st.byId)
    { heap := heap, totalPhotoCount := st.totalPhotoCount, photoCount := st.photoCount,
      newSectionIds := [], newSectionById := [] }
  (acc.heap,
   { st with totalPhotoCount := acc.totalPhotoCount, photoCount := acc.photoCount,
             ids := acc.newSectionIds, byId := acc.newSectionById })

end AnselData

namespace AnselWalker

/-- A file-system tree: regular files and directories with their entries. -/
inductive FSEntry where
  | file (name : String)
  | dir (name : String) (children : List FSEntry)

/-- Path.join of a directory path and an entry name. -/
def pjoin (a b : String) : String := a ++ "/" ++ b

/-- The recursive body of the walker over the entries of a directory at
dirName: a file contributes its joined path; a subdirectory whose joined
path is in the blacklist contributes nothing (the recursive call returns
false, which the filter drops); any other subdirectory contributes its own
walk.  The concat-reduce of the source flattens everything into one list
of file paths. -/
def walkChildren (blacklist : List String) : String → List FSEntry → List String
  | _, [] => []
  | dirName, .file f :: rest => pjoin dirName f :: walkChildren blacklist dirName rest
  | dirName, .dir d cs :: rest =>
    (if pjoin dirName d ∈ blacklist then [] else walkChildren blacklist (pjoin dirName d) cs)
      ++ walkChildren blacklist dirName rest
termination_by _ l => sizeOf l

/-- The walker: a blacklisted root returns false (none); otherwise the list
of the file paths found under the root. -/
def walker (dirName : String) (blacklist : List String) (children : List FSEntry) :
    Option (List String) :=
  if dirName ∈ blacklist then none else some (walkChildren blacklist dirName children)

/-- The file paths the spec promises: GoodFile blacklist dirName children p
holds when p is the path of a regular file under the directory at dirName
(holding the given children) that is reachable without passing through a
subdirectory whose path is blacklisted. -/
inductive GoodFile (blacklist : List String) : String → List FSEntry → String → Prop where
  | here {dirName children f} : FSEntry.file f ∈ children →
      GoodFile blacklist dirName children (pjoin dirName f)
  | there {dirName children d cs p} : FSEntry.dir d cs ∈ children →
      pjoin dirName d ∉ blacklist → GoodFile blacklist (pjoin dirName d) cs p →
      GoodFile blacklist dirName children p

end AnselWalker

namespace Ansel

/-! ## Concrete sample inputs (used to instantiate the theorems) -/

/-- A sample photo. -/
def photoA : PhotoType := { id := 1, master := "a.jpg", flag := 0 }

/-- A second sample photo with a different path. -/
def photoB : PhotoType := { id := 2, master := "b.jpg", flag := 0 }

/-- A sample non-flag mutation: set a crop edit operation. -/
def mutCrop : Mut := fun w => { w with edits := [("crop", 3)] }

/-- A sample flag mutation: set the flagged marker. -/
def mutFlagOn : Mut := flagMutation true

/-- A sample fetched PhotoWork: the empty record. -/
def emptyWork : PhotoWork := { flagged := none, edits := [] }

end Ansel

namespace AnselData

open Ansel (PhotoType)

/-- A sample photo record stored in a section. -/
def photoT : PhotoType := { id := 7, master := "t.jpg", flag := 0 }

/-- A sample heap: address 0 holds the photoIds array of the only section. -/
def heap0 : Heap := fun a => if a = 0 then [7] else []

/-- A sample section holding the one photo, its photoIds array at address 0. -/
def sec0 : PhotoSection :=
  { id := "s", title := "T", count := 1, photoIds := 0, photoData := some [(7, photoT)] }

/-- A sample sections state holding the one section. -/
def st0 : SectionsState :=
  { fetchState := .idle, totalPhotoCount := some 1, photoCount := 1,
    ids := ["s"], byId := [("s", sec0)] }

end AnselData

namespace AnselWalker

/-- A sample directory tree: a file, a subdirectory with a file, and a
subdirectory that the sample blacklist excludes. -/
def tree0 : List FSEntry :=
  [FSEntry.file "a.jpg",
   FSEntry.dir "sub" [FSEntry.file "b.jpg"],
   FSEntry.dir "skip" [FSEntry.file "c.jpg"]]

/-- A sample blacklist excluding the skip subdirectory of the root r. -/
def blacklist0 : List String := ["r/skip"]

end AnselWalker

namespace Ansel

/-! ## Registry and counting lemmas -/

theorem lookupPU_setPU_self {l : List (String × PendingUpdate)} {key : String}
    {nv : PendingUpdate} (h : (lookupPU l key).isSome) :
    lookupPU (setPU l key nv) key = some nv := by
  induction l with
  | nil => simp [lookupPU] at h
  | cons kv rest ih =>
    obtain ⟨k, v⟩ := kv
    by_cases hk : k = key
    · simp [lookupPU, setPU, hk]
    · simp [lookupPU, setPU, hk] at h ⊢
      exact ih h

theorem lookupPU_setPU_ne {l : List (String × PendingUpdate)} {key k : String}
    {nv : PendingUpdate} (h : k ≠ key) :
    lookupPU (setPU l key nv) k = lookupPU l k := by
  induction l with
  | nil => simp [lookupPU, setPU]
  | cons kv rest ih =>
    obtain ⟨k0, v⟩ := kv
    by_cases hk : k0 = key
    · subst hk
      simp [lookupPU, setPU, Ne.symm h]
    · by_cases hk2 : k0 = k <;> simp [lookupPU, setPU, hk, hk2, h, ih]

theorem lookupPU_removePU_self {l : List (String × PendingUpdate)} {key : String} :
    lookupPU (removePU l key) key = none := by
  induction l with
  | nil => simp [lookupPU, removePU]
  | cons kv rest ih =>
    obtain ⟨k0, v⟩ := kv
    by_cases hk : k0 = key <;> simp [lookupPU, removePU, hk, ih]

theorem lookupPU_removePU_ne {l : List (String × PendingUpdate)} {key k : String}
    (h : k ≠ key) : lookupPU (removePU l key) k = lookupPU l k := by
  induction l with
  | nil => simp [lookupPU, removePU]
  | cons kv rest ih =>
    obtain ⟨k0, v⟩ := kv
    by_cases hk : k0 = key
    · subst hk
      simp [lookupPU, removePU, Ne.symm h, ih]
    · by_cases hk2 : k0 = k <;> simp [lookupPU, removePU, hk, hk2, h, ih]

theorem lookupPU_append_self {l : List (String × PendingUpdate)} {key : String}
    {v : PendingUpdate} (h : lookupPU l key = none) :
    lookupPU (l ++ [(key, v)]) key = some v := by
  induction l with
  | nil => simp [lookupPU]
  | cons kv rest ih =>
    obtain ⟨k0, v0⟩ := kv
    by_cases hk : k0 = key
    · simp [lookupPU, hk] at h
    · simp [lookupPU, hk] at h ⊢
      exact ih h

theorem lookupPU_append_ne {l : List (String × PendingUpdate)} {key k : String}
    {v : PendingUpdate} (h : k ≠ key) :
    lookupPU (l ++ [(key, v)]) k = lookupPU l k := by
  induction l with
  | nil => simp [lookupPU, Ne.symm h]
  | cons kv rest ih =>
    obtain ⟨k0, v0⟩ := kv
    by_cases hk : k0 = k
    · simp [lookupPU, hk]
    · simp [lookupPU, hk, ih]

theorem keys_setPU {l : List (String × PendingUpdate)} {key : String} {nv : PendingUpdate} :
    (setPU l key nv).map Prod.fst = l.map Prod.fst := by
  induction l with
  | nil => simp [setPU]
  | cons kv rest ih =>
    obtain ⟨k0, v0⟩ := kv
    by_cases hk : k0 = key <;> simp [setPU, hk, ih]

theorem removePU_sublist (l : List (String × PendingUpdate)) (key : String) :
    List.Sublist (removePU l key) l := by
  induction l with
  | nil => simp [removePU]
  | cons kv rest ih =>
    obtain ⟨k0, v0⟩ := kv
    by_cases hk : k0 = key
    · simp only [removePU, if_pos hk]
      exact List.Sublist.cons _ ih
    · simp only [removePU, if_neg hk]
      exact List.Sublist.cons₂ _ ih

theorem lookupPU_isSome_iff {l : List (String × PendingUpdate)} {k : String} :
    (lookupPU l k).isSome ↔ k ∈ l.map Prod.fst := by
  induction l with
  | nil => simp [lookupPU]
  | cons kv rest ih =>
    obtain ⟨k0, v0⟩ := kv
    by_cases hk : k0 = k
    · subst hk
      simp [lookupPU]
    · simp [lookupPU, hk, ih, Ne.symm hk]

theorem countS_append (l1 l2 : List String) (p : String) :
    countS (l1 ++ l2) p = countS l1 p + countS l2 p := by
  induction l1 with
  | nil => simp [countS]
  | cons x rest ih => simp [countS, ih]; omega

theorem countS_eraseS_self (l : List String) (p : String) :
    countS (eraseS l p) p = countS l p - 1 := by
  induction l with
  | nil => simp [countS, eraseS]
  | cons x rest ih =>
    by_cases hx : x = p <;> simp [countS, eraseS, hx, ih]

theorem countS_eraseS_ne {l : List String} {p q : String} (h : q ≠ p) :
    countS (eraseS l p) q = countS l q := by
  induction l with
  | nil => simp [countS, eraseS]
  | cons x rest ih =>
    by_cases hx : x = p
    · subst hx
      simp [countS, eraseS, Ne.symm h, ih]
    · by_cases hq : x = q <;> simp [countS, eraseS, hx, hq, h, ih]

theorem countS_pos_of_mem {l : List String} {p : String} (h : p ∈ l) :
    0 < countS l p := by
  induction l with
  | nil => cases h
  | cons x rest ih =>
    rcases List.mem_cons.mp h with h1 | h2
    · simp [countS, h1]
    · have := ih h2
      by_cases hx : x = p
      · simp [countS, hx]
      · simp only [countS, hx, if_neg]
        omega

/-! ## The registry and fetch invariant (preserved by every step) -/

theorem inv_initState : Inv initState := by
  constructor
  · simp [initState]
  · intro p
    simp [initState, lookupPU, countS]

theorem inv_step {s : SysState} (e : Event) (h : Inv s) : Inv (step s e) := by
  obtain ⟨hnd, hcnt⟩ := h
  cases e with
  | req photo mutate =>
    rcases hl : lookupPU s.pendingUpdates photo.master with _ | pu
    · refine ⟨?_, ?_⟩
      · simp only [step, hl, List.map_append, List.map_cons, List.map_nil]
        rw [List.nodup_append_comm]
        refine List.nodup_cons.mpr ⟨?_, hnd⟩
        intro hmem
        have := lookupPU_isSome_iff.mpr hmem
        simp [hl] at this
      · intro p
        by_cases hp : p = photo.master
        · subst hp
          have h0 : countS s.inFlight photo.master ≠ 1 := by
            intro h1
            have h2 := (hcnt photo.master).2.mpr h1
            simp [hl] at h2
          have h0' : countS s.inFlight photo.master = 0 := by
            have := (hcnt photo.master).1
            omega
          simp [step, hl, countS_append, h0', countS, lookupPU_append_self hl]
        · have hc := hcnt p
          simpa [step, hl, countS_append, countS, Ne.symm hp, lookupPU_append_ne hp] using hc
    · refine ⟨?_, ?_⟩
      · simpa [step, hl, keys_setPU] using hnd
      · intro p
        by_cases hp : p = photo.master
        · subst hp
          have hsome : (lookupPU s.pendingUpdates photo.master).isSome := by simp [hl]
          have h1 : countS s.inFlight photo.master = 1 := (hcnt photo.master).2.mp hsome
          simp [step, hl, lookupPU_setPU_self hsome, h1]
        · have hc := hcnt p
          simpa [step, hl, lookupPU_setPU_ne hp] using hc
  | resolve photoPath photoWork =>
    by_cases hmem : photoPath ∈ s.inFlight
    · rcases hl : lookupPU s.pendingUpdates photoPath with _ | pu
      · exfalso
        have h1 : countS s.inFlight photoPath = 1 := by
          have hpos := countS_pos_of_mem hmem
          have := (hcnt photoPath).1
          omega
        have := (hcnt photoPath).2.mpr h1
        simp [hl] at this
      · refine ⟨?_, ?_⟩
        · have hsub := List.Sublist.map Prod.fst (removePU_sublist s.pendingUpdates photoPath)
          have hnd2 : ((removePU s.pendingUpdates photoPath).map Prod.fst).Nodup :=
            List.Nodup.sublist hsub hnd
          simpa [step, hmem, hl] using hnd2
        · intro p
          by_cases hp : p = photoPath
          · subst hp
            have h1 : countS s.inFlight p = 1 :=
              (hcnt p).2.mp (by simp [hl])
            simp [step, hmem, hl, lookupPU_removePU_self, countS_eraseS_self, h1]
          · have hc := hcnt p
            simpa [step, hmem, hl, lookupPU_removePU_ne hp, countS_eraseS_ne hp] using hc
    · simpa [step, hmem] using ⟨hnd, hcnt⟩
  | reject photoPath =>
    by_cases hmem : photoPath ∈ s.inFlight
    · refine ⟨?_, ?_⟩
      · have hsub := List.Sublist.map Prod.fst (removePU_sublist s.pendingUpdates photoPath)
        have hnd2 : ((removePU s.pendingUpdates photoPath).map Prod.fst).Nodup :=
          List.Nodup.sublist hsub hnd
        simpa [step, hmem] using hnd2
      · intro p
        by_cases hp : p = photoPath
        · subst hp
          have h1 : countS s.inFlight p = 1 := by
            have hpos := countS_pos_of_mem hmem
            have := (hcnt p).1
            omega
          simp [step, hmem, lookupPU_removePU_self, countS_eraseS_self, h1]
        · have hc := hcnt p
          simpa [step, hmem, lookupPU_removePU_ne hp, countS_eraseS_ne hp] using hc
    · simpa [step, hmem] using ⟨hnd, hcnt⟩

theorem inv_reachable {s : SysState} (h : Reachable s) : Inv s := by
  induction h with
  | init => exact inv_initState
  | next s e _ ih => exact inv_step e ih

end Ansel

namespace Ansel

/-! ## Coalescing lemmas -/

theorem execList_req_some (photo : PhotoType) (ms : List Mut) :
    ∀ (s : SysState) (pu : PendingUpdate),
      lookupPU s.pendingUpdates photo.master = some pu →
      lookupPU (execList s (ms.map (Event.req photo))).pendingUpdates photo.master
          = some { photoId := pu.photoId, updates := pu.updates ++ ms }
      ∧ (execList s (ms.map (Event.req photo))).inFlight = s.inFlight
      ∧ (execList s (ms.map (Event.req photo))).fetchLog = s.fetchLog
      ∧ (execList s (ms.map (Event.req photo))).dispatchLog = s.dispatchLog
      ∧ (execList s (ms.map (Event.req photo))).storeLog = s.storeLog
      ∧ (execList s (ms.map (Event.req photo))).thumbLog = s.thumbLog := by
  induction ms with
  | nil =>
    intro s pu h
    simp [execList, h]
  | cons m rest ih =>
    intro s pu h
    have hsome : (lookupPU s.pendingUpdates photo.master).isSome := by simp [h]
    have hstep : lookupPU (step s (.req photo m)).pendingUpdates photo.master
        = some { photoId := pu.photoId, updates := pu.updates ++ [m] } := by
      simp [step, h, lookupPU_setPU_self hsome]
    have hfields : (step s (.req photo m)).inFlight = s.inFlight
        ∧ (step s (.req photo m)).fetchLog = s.fetchLog
        ∧ (step s (.req photo m)).dispatchLog = s.dispatchLog
        ∧ (step s (.req photo m)).storeLog = s.storeLog
        ∧ (step s (.req photo m)).thumbLog = s.thumbLog := by
      simp [step, h]
    have hrec := ih (step s (.req photo m)) _ hstep
    simp only [List.map_cons, execList, List.foldl_cons] at hrec ⊢
    refine ⟨?_, ?_⟩
    · rw [hrec.1]
      simp
    · rw [hrec.2.1, hrec.2.2.1, hrec.2.2.2.1, hrec.2.2.2.2.1, hrec.2.2.2.2.2]
      exact hfields

theorem step_req_frame (s : SysState) (photo : PhotoType) (m : Mut) :
    (step s (.req photo m)).dispatchLog = s.dispatchLog
    ∧ (step s (.req photo m)).storeLog = s.storeLog
    ∧ (step s (.req photo m)).thumbLog = s.thumbLog
    ∧ (step s (.req photo m)).saveFlagLog = s.saveFlagLog := by
  rcases h : lookupPU s.pendingUpdates photo.master with _ | pu <;> simp [step, h]

theorem step_req_eq_none {s : SysState} {photo : PhotoType} {m : Mut}
    (h : lookupPU s.pendingUpdates photo.master = none) :
    step s (.req photo m)
      = { s with
          pendingUpdates :=
            s.pendingUpdates ++ [(photo.master, { photoId := photo.id, updates := [m] })],
          inFlight := s.inFlight ++ [photo.master],
          fetchLog := s.fetchLog ++ [photo.master] } := by
  simp [step, h]

theorem step_locality {s : SysState} {e : Event} {p : String} (h : Event.path e ≠ p) :
    lookupPU (step s e).pendingUpdates p = lookupPU s.pendingUpdates p
    ∧ countS (step s e).fetchLog p = countS s.fetchLog p := by
  cases e with
  | req photo m =>
    replace h : photo.master ≠ p := h
    rcases hl : lookupPU s.pendingUpdates photo.master with _ | pu
    · simp [step, hl, lookupPU_append_ne (Ne.symm h), countS_append, countS, h]
    · simp [step, hl, lookupPU_setPU_ne (Ne.symm h)]
  | resolve q w =>
    replace h : q ≠ p := h
    by_cases hmem : q ∈ s.inFlight
    · rcases hl : lookupPU s.pendingUpdates q with _ | pu
      · simp [step, hmem, hl]
      · simp [step, hmem, hl, lookupPU_removePU_ne (Ne.symm h)]
    · simp [step, hmem]
  | reject q =>
    replace h : q ≠ p := h
    by_cases hmem : q ∈ s.inFlight
    · simp [step, hmem, lookupPU_removePU_ne (Ne.symm h)]
    · simp [step, hmem]

theorem execList_locality {p : String} :
    ∀ (es : List Event) (s : SysState), (∀ e ∈ es, Event.path e ≠ p) →
      lookupPU (execList s es).pendingUpdates p = lookupPU s.pendingUpdates p
      ∧ countS (execList s es).fetchLog p = countS s.fetchLog p := by
  intro es
  induction es with
  | nil => intro s _; simp [execList]
  | cons e rest ih =>
    intro s hes
    have h1 := step_locality (s := s) (hes e (List.mem_cons_self e rest))
    have h2 := ih (step s e) (fun e2 he2 => hes e2 (List.mem_cons_of_mem e he2))
    simp only [execList, List.foldl_cons] at h2 ⊢
    exact ⟨h2.1.trans h1.1, h2.2.trans h1.2⟩

/-! ## Claim theorems for the coalescing queue -/

/-- Claim C1: any N requestUpdate calls for the same photo path issued
before the fetch of that path resolves cause exactly one fetchPhotoWork
call, and when the fetch resolves all N mutation functions are applied to
the single fetched PhotoWork in submission (FIFO) order — the dispatched
and persisted PhotoWork is the FIFO fold of the queued mutations over the
fetched record. -/
theorem c1_coalescing_fifo (s : SysState) (photo : PhotoType) (ms : List Mut) (w : PhotoWork)
    (hne : ms ≠ []) (h0 : lookupPU s.pendingUpdates photo.master = none) :
    countS (execList s (ms.map (Event.req photo))).fetchLog photo.master
        = countS s.fetchLog photo.master + 1
    ∧ lookupPU (execList s (ms.map (Event.req photo))).pendingUpdates photo.master
        = some { photoId := photo.id, updates := ms }
    ∧ (step (execList s (ms.map (Event.req photo))) (.resolve photo.master w)).dispatchLog
        = s.dispatchLog ++ [Dispatch.changePhotoWork photo.id (applyUpdates w ms)]
    ∧ (step (execList s (ms.map (Event.req photo))) (.resolve photo.master w)).storeLog
        = s.storeLog ++ [(photo.master, applyUpdates w ms)] := by
  rcases ms with _ | ⟨m, rest⟩
  · exact absurd rfl hne
  have hstep : lookupPU (step s (.req photo m)).pendingUpdates photo.master
      = some { photoId := photo.id, updates := [m] } := by
    simp only [step, h0]
    exact lookupPU_append_self h0
  have hrec := execList_req_some photo rest (step s (.req photo m)) _ hstep
  have hfl : (step s (.req photo m)).fetchLog = s.fetchLog ++ [photo.master] := by
    simp [step, h0]
  have hifl : (step s (.req photo m)).inFlight = s.inFlight ++ [photo.master] := by
    simp [step, h0]
  have hframe := step_req_frame s photo m
  simp only [List.map_cons, execList, List.foldl_cons] at hrec ⊢
  set s2 := (rest.map (Event.req photo)).foldl step (step s (.req photo m)) with hs2
  have hlook2 : lookupPU s2.pendingUpdates photo.master
      = some { photoId := photo.id, updates := m :: rest } := by
    rw [hrec.1]
    simp
  have hmem2 : photo.master ∈ s2.inFlight := by
    rw [hrec.2.1, hifl]
    simp
  refine ⟨?_, hlook2, ?_, ?_⟩
  · rw [hrec.2.2.1, hfl, countS_append]
    simp [countS]
  · simp [step, hmem2, hlook2]
    rw [hrec.2.2.2.1, hframe.1]
  · simp [step, hmem2, hlook2]
    rw [hrec.2.2.2.2.1, hframe.2.1]

/-- Claim C1, witness: from the initial state, two requestUpdate calls for
photoA (a crop mutation, then a flag mutation) issue one fetch, queue both
mutations in order, and on resolution dispatch and persist the PhotoWork
with the crop applied first and the flag applied second. -/
theorem c1_coalescing_fifo_witness :
    countS (execList initState ([mutCrop, mutFlagOn].map (Event.req photoA))).fetchLog photoA.master
        = countS initState.fetchLog photoA.master + 1
    ∧ lookupPU (execList initState ([mutCrop, mutFlagOn].map (Event.req photoA))).pendingUpdates
        photoA.master = some { photoId := photoA.id, updates := [mutCrop, mutFlagOn] }
    ∧ (step (execList initState ([mutCrop, mutFlagOn].map (Event.req photoA)))
        (.resolve photoA.master emptyWork)).dispatchLog
        = initState.dispatchLog
          ++ [Dispatch.changePhotoWork photoA.id (applyUpdates emptyWork [mutCrop, mutFlagOn])]
    ∧ (step (execList initState ([mutCrop, mutFlagOn].map (Event.req photoA)))
        (.resolve photoA.master emptyWork)).storeLog
        = initState.storeLog ++ [(photoA.master, applyUpdates emptyWork [mutCrop, mutFlagOn])] :=
  c1_coalescing_fifo initState photoA [mutCrop, mutFlagOn] emptyWork
    (by simp) (by rfl)

end Ansel

namespace Ansel

theorem photoWork_ext {a b : PhotoWork} (h1 : a.flagged = b.flagged) (h2 : a.edits = b.edits) :
    a = b := by
  cases a
  cases b
  simp only [PhotoWork.mk.injEq]
  exact ⟨h1, h2⟩

theorem normalizeBefore_edits (f a : PhotoWork) : (normalizeBefore f a).edits = f.edits := by
  unfold normalizeBefore
  split <;> rfl

/-- Claim C2: in every state reachable by any interleaving of requestUpdate
calls and fetch resolutions or rejections, the pendingUpdates registry
holds at most one entry per photo path (its keys are pairwise distinct)
and at most one fetch of any given photo path is outstanding. -/
theorem c2_registry_and_fetch_unique (s : SysState) (p : String) (h : Reachable s) :
    (s.pendingUpdates.map Prod.fst).Nodup ∧ countS s.inFlight p ≤ 1 :=
  ⟨(inv_reachable h).1, ((inv_reachable h).2 p).1⟩

/-- Claim C2, witness: the state after one requestUpdate call from the
initial state is reachable, its registry keys are distinct and at most one
fetch of photoA's path is outstanding. -/
theorem c2_registry_and_fetch_unique_witness :
    (((step initState (Event.req photoA mutCrop)).pendingUpdates.map Prod.fst).Nodup
      ∧ countS (step initState (Event.req photoA mutCrop)).inFlight "a.jpg" ≤ 1) :=
  c2_registry_and_fetch_unique _ "a.jpg" (Reachable.next _ _ Reachable.init)

/-- Claim C3: when the fetch of a photo path rejects, no queued mutation is
applied and no effect is issued — the dispatch, persistence and thumbnail
logs are unchanged —, the registry entry of the path is removed, and a
subsequent requestUpdate for the same path registers a fresh single-entry
queue and issues a brand-new fetch. -/
theorem c3_reject_clears_state (s : SysState) (photoPath : String) (photo : PhotoType) (m : Mut)
    (hmem : photoPath ∈ s.inFlight)
    (hl : (lookupPU s.pendingUpdates photoPath).isSome)
    (hphoto : photo.master = photoPath) :
    (step s (.reject photoPath)).dispatchLog = s.dispatchLog
    ∧ (step s (.reject photoPath)).storeLog = s.storeLog
    ∧ (step s (.reject photoPath)).thumbLog = s.thumbLog
    ∧ lookupPU (step s (.reject photoPath)).pendingUpdates photoPath = none
    ∧ lookupPU (step (step s (.reject photoPath)) (.req photo m)).pendingUpdates photoPath
        = some { photoId := photo.id, updates := [m] }
    ∧ countS (step (step s (.reject photoPath)) (.req photo m)).fetchLog photoPath
        = countS s.fetchLog photoPath + 1 := by
  subst hphoto
  have hrm : lookupPU (removePU s.pendingUpdates photo.master) photo.master = none :=
    lookupPU_removePU_self
  refine ⟨by simp [step, hmem], by simp [step, hmem], by simp [step, hmem], ?_, ?_, ?_⟩
  · simp [step, hmem, lookupPU_removePU_self]
  · simp only [step, hmem, if_pos, hrm]
    exact lookupPU_append_self hrm
  · simp [step, hmem, hrm, countS_append, countS]

/-- Claim C3, witness: after a requestUpdate for photoA whose fetch then
rejects, no dispatch, persistence or thumbnail effect was issued, the
registry slot of photoA's path is empty, and a fresh requestUpdate for the
same path registers a one-element queue and issues a second fetch. -/
theorem c3_reject_clears_state_witness :
    (step (step initState (Event.req photoA mutFlagOn)) (.reject photoA.master)).dispatchLog
        = (step initState (Event.req photoA mutFlagOn)).dispatchLog
    ∧ (step (step initState (Event.req photoA mutFlagOn)) (.reject photoA.master)).storeLog
        = (step initState (Event.req photoA mutFlagOn)).storeLog
    ∧ (step (step initState (Event.req photoA mutFlagOn)) (.reject photoA.master)).thumbLog
        = (step initState (Event.req photoA mutFlagOn)).thumbLog
    ∧ lookupPU (step (step initState (Event.req photoA mutFlagOn))
        (.reject photoA.master)).pendingUpdates photoA.master = none
    ∧ lookupPU (step (step (step initState (Event.req photoA mutFlagOn)) (.reject photoA.master))
        (.req photoA mutCrop)).pendingUpdates photoA.master
        = some { photoId := photoA.id, updates := [mutCrop] }
    ∧ countS (step (step (step initState (Event.req photoA mutFlagOn)) (.reject photoA.master))
        (.req photoA mutCrop)).fetchLog photoA.master
        = countS (step initState (Event.req photoA mutFlagOn)).fetchLog photoA.master + 1 :=
  c3_reject_clears_state (step initState (Event.req photoA mutFlagOn)) photoA.master photoA
    mutCrop (by decide) (by rfl) rfl

/-- Claim C4: when the only difference between the fetched PhotoWork and
the PhotoWork after applying all queued mutations is the presence or
absence of the flagged marker (both records agree on every other field and
carry flagged only as an absent or set marker), the normalization of the
pre-mutation copy makes the comparison equal, thumbnailNeedsUpdate is
false, and the resolution step issues no thumbnail invalidation. -/
theorem c4_flag_only_no_thumbnail (s : SysState) (photoPath : String) (pu : PendingUpdate)
    (w : PhotoWork)
    (hmem : photoPath ∈ s.inFlight)
    (hl : lookupPU s.pendingUpdates photoPath = some pu)
    (hedits : (applyUpdates w pu.updates).edits = w.edits)
    (_hbefore : w.flagged = none ∨ w.flagged = some true)
    (hafter : (applyUpdates w pu.updates).flagged = none
        ∨ (applyUpdates w pu.updates).flagged = some true) :
    thumbnailNeedsUpdate w (applyUpdates w pu.updates) = false
    ∧ (step s (.resolve photoPath w)).thumbLog = s.thumbLog := by
  have hnorm : normalizeBefore w (applyUpdates w pu.updates) = applyUpdates w pu.updates := by
    refine photoWork_ext ?_ (by rw [normalizeBefore_edits, hedits])
    rcases hafter with hA | hA
    · have ht : truthy (applyUpdates w pu.updates).flagged = false := by rw [hA]; rfl
      unfold normalizeBefore
      rw [ht, hA]
      simp
    · have ht : truthy (applyUpdates w pu.updates).flagged = true := by rw [hA]; rfl
      unfold normalizeBefore
      rw [ht, hA]
      simp
  have hthumb : thumbnailNeedsUpdate w (applyUpdates w pu.updates) = false := by
    unfold thumbnailNeedsUpdate isDeepEqual
    rw [hnorm]
    simp
  refine ⟨hthumb, ?_⟩
  simp [step, hmem, hl, hthumb]

/-- Claim C4, witness: a cycle whose single queued mutation only sets the
flagged marker on an empty fetched PhotoWork computes
thumbnailNeedsUpdate = false, and the resolution step leaves the thumbnail
log unchanged. -/
theorem c4_flag_only_no_thumbnail_witness :
    thumbnailNeedsUpdate emptyWork
        (applyUpdates emptyWork (PendingUpdate.updates { photoId := photoA.id, updates := [mutFlagOn] }))
        = false
    ∧ (step (step initState (Event.req photoA mutFlagOn))
        (.resolve photoA.master emptyWork)).thumbLog
        = (step initState (Event.req photoA mutFlagOn)).thumbLog :=
  c4_flag_only_no_thumbnail (step initState (Event.req photoA mutFlagOn)) photoA.master
    { photoId := photoA.id, updates := [mutFlagOn] } emptyWork
    (by decide) (by rfl) (by rfl) (Or.inl rfl) (Or.inr rfl)

/-- Claim C5: when the queued mutations change the non-flagged fields of
the fetched PhotoWork (the net result differs from the fetched record
outside flagged), thumbnailNeedsUpdate is true and the resolution step
issues a thumbnail invalidation for the photo. -/
theorem c5_nonflag_change_thumbnail (s : SysState) (photoPath : String) (pu : PendingUpdate)
    (w : PhotoWork)
    (hmem : photoPath ∈ s.inFlight)
    (hl : lookupPU s.pendingUpdates photoPath = some pu)
    (hedits : (applyUpdates w pu.updates).edits ≠ w.edits) :
    thumbnailNeedsUpdate w (applyUpdates w pu.updates) = true
    ∧ (step s (.resolve photoPath w)).thumbLog = s.thumbLog ++ [pu.photoId] := by
  have hne : normalizeBefore w (applyUpdates w pu.updates) ≠ applyUpdates w pu.updates := by
    intro he
    apply hedits
    rw [← he, normalizeBefore_edits]
  have hthumb : thumbnailNeedsUpdate w (applyUpdates w pu.updates) = true := by
    unfold thumbnailNeedsUpdate isDeepEqual
    simp [hne]
  refine ⟨hthumb, ?_⟩
  simp [step, hmem, hl, hthumb]

/-- Claim C5, witness: a cycle whose single queued mutation sets a crop
edit on an empty fetched PhotoWork computes thumbnailNeedsUpdate = true,
and the resolution step appends the photo to the thumbnail log. -/
theorem c5_nonflag_change_thumbnail_witness :
    thumbnailNeedsUpdate emptyWork
        (applyUpdates emptyWork (PendingUpdate.updates { photoId := photoA.id, updates := [mutCrop] }))
        = true
    ∧ (step (step initState (Event.req photoA mutCrop))
        (.resolve photoA.master emptyWork)).thumbLog
        = (step initState (Event.req photoA mutCrop)).thumbLog
          ++ [PendingUpdate.photoId { photoId := photoA.id, updates := [mutCrop] }] :=
  c5_nonflag_change_thumbnail (step initState (Event.req photoA mutCrop)) photoA.master
    { photoId := photoA.id, updates := [mutCrop] } emptyWork
    (by decide) (by rfl) (by decide)

/-- Claim C6: two requestUpdate calls for photos with two different photo
paths trigger two independent fetches, one per path, regardless of the
relative timing: the first call fetches its own path; whatever events not
concerning the second path happen in between, the second call still issues
its own fetch of the second path and no fetch of the first. -/
theorem c6_isolation_across_paths (s : SysState) (photo1 photo2 : PhotoType) (m1 m2 : Mut)
    (es : List Event)
    (hne : photo1.master ≠ photo2.master)
    (h1 : lookupPU s.pendingUpdates photo1.master = none)
    (h2 : lookupPU s.pendingUpdates photo2.master = none)
    (hes : ∀ e ∈ es, Event.path e ≠ photo2.master) :
    countS (step s (.req photo1 m1)).fetchLog photo1.master
        = countS s.fetchLog photo1.master + 1
    ∧ countS (execList (step s (.req photo1 m1)) es).fetchLog photo2.master
        = countS s.fetchLog photo2.master
    ∧ countS (step (execList (step s (.req photo1 m1)) es) (.req photo2 m2)).fetchLog photo2.master
        = countS s.fetchLog photo2.master + 1
    ∧ countS (step (execList (step s (.req photo1 m1)) es) (.req photo2 m2)).fetchLog photo1.master
        = countS (execList (step s (.req photo1 m1)) es).fetchLog photo1.master := by
  have hstep1fl : (step s (.req photo1 m1)).fetchLog = s.fetchLog ++ [photo1.master] := by
    simp [step, h1]
  have hstep1lk : lookupPU (step s (.req photo1 m1)).pendingUpdates photo2.master
      = lookupPU s.pendingUpdates photo2.master := by
    simp only [step, h1]
    exact lookupPU_append_ne (Ne.symm hne)
  have hloc := execList_locality es (step s (.req photo1 m1)) hes
  have hlk2 : lookupPU (execList (step s (.req photo1 m1)) es).pendingUpdates photo2.master
      = none := by
    rw [hloc.1, hstep1lk, h2]
  have hfl2 : countS (execList (step s (.req photo1 m1)) es).fetchLog photo2.master
      = countS s.fetchLog photo2.master := by
    rw [hloc.2, hstep1fl, countS_append]
    simp [countS, hne]
  refine ⟨?_, hfl2, ?_, ?_⟩
  · rw [hstep1fl, countS_append]
    simp [countS]
  · rw [step_req_eq_none hlk2]
    simp only []
    rw [countS_append, hfl2]
    simp [countS]
  · rw [step_req_eq_none hlk2]
    simp only []
    rw [countS_append]
    simp [countS, Ne.symm hne]

/-- Claim C6, witness: from the initial state, a requestUpdate for photoA,
then a second (coalesced) requestUpdate for photoA, then a requestUpdate
for photoB: photoA's first call fetched its path, and photoB's call issues
its own independent fetch of photoB's path and none of photoA's. -/
theorem c6_isolation_across_paths_witness :
    countS (step initState (.req photoA mutCrop)).fetchLog photoA.master
        = countS initState.fetchLog photoA.master + 1
    ∧ countS (execList (step initState (.req photoA mutCrop))
        [Event.req photoA mutFlagOn]).fetchLog photoB.master
        = countS initState.fetchLog photoB.master
    ∧ countS (step (execList (step initState (.req photoA mutCrop)) [Event.req photoA mutFlagOn])
        (.req photoB mutFlagOn)).fetchLog photoB.master
        = countS initState.fetchLog photoB.master + 1
    ∧ countS (step (execList (step initState (.req photoA mutCrop)) [Event.req photoA mutFlagOn])
        (.req photoB mutFlagOn)).fetchLog photoA.master
        = countS (execList (step initState (.req photoA mutCrop))
            [Event.req photoA mutFlagOn]).fetchLog photoA.master :=
  c6_isolation_across_paths initState photoA photoB mutCrop mutFlagOn [Event.req photoA mutFlagOn]
    (by decide) (by rfl) (by rfl)
    (by
      intro e he
      rw [List.mem_singleton] at he
      subst he
      decide)

end Ansel

namespace Ansel

theorem execList_cons (s : SysState) (e : Event) (es : List Event) :
    execList s (e :: es) = execList (step s e) es := rfl

theorem step_set_save (s : SysState) (v : List (Nat × Bool)) (e : Event) :
    step { s with saveFlagLog := v } e = { step s e with saveFlagLog := v } := by
  cases e with
  | req photo m =>
    rcases hl : lookupPU s.pendingUpdates photo.master with _ | pu <;> simp [step, hl]
  | resolve p w =>
    by_cases hmem : p ∈ s.inFlight
    · rcases hl : lookupPU s.pendingUpdates p with _ | pu <;> simp [step, hmem, hl]
    · simp [step, hmem]
  | reject p =>
    by_cases hmem : p ∈ s.inFlight <;> simp [step, hmem]

theorem execList_set_save (es : List Event) :
    ∀ (s : SysState) (v : List (Nat × Bool)),
      execList { s with saveFlagLog := v } es = { execList s es with saveFlagLog := v } := by
  induction es with
  | nil => intro s v; simp [execList]
  | cons e rest ih =>
    intro s v
    rw [execList_cons, execList_cons, step_set_save]
    exact ih (step s e) v

theorem execList_reqs_dispatchLog (f : PhotoType → Mut) :
    ∀ (photos : List PhotoType) (s : SysState),
      (execList s (photos.map fun p => Event.req p (f p))).dispatchLog = s.dispatchLog := by
  intro photos
  induction photos with
  | nil => intro s; rfl
  | cons p rest ih =>
    intro s
    rw [List.map_cons, execList_cons, ih]
    exact (step_req_frame s p (f p)).1

theorem setPhotosFold (flag : Bool) :
    ∀ (photos : List PhotoType) (s : SysState),
      photos.foldl
        (fun acc photo =>
          let acc1 := storeFlagged photo flag acc
          { acc1 with saveFlagLog := acc1.saveFlagLog ++ [(photo.id, flag)] }) s
      = { execList s (photos.map fun p => Event.req p (flagMutation flag)) with
          saveFlagLog := s.saveFlagLog ++ photos.map fun p => (p.id, flag) } := by
  intro photos
  induction photos with
  | nil =>
    intro s
    simp [execList]
  | cons p rest ih =>
    intro s
    simp only [List.map_cons, List.foldl_cons, execList_cons]
    rw [ih]
    simp only [storeFlagged]
    rw [(step_req_frame s p (flagMutation flag)).2.2.2]
    rw [execList_set_save]
    simp only [List.append_assoc, List.singleton_append]

/-- Claim C9: toggleFlag and setPhotosFlagged route their flagged-state
change through updatePhotoWork — the pendingUpdates registry and the fetch
calls after either operation are exactly those of the corresponding
requestUpdate steps with the flag mutation, so they inherit the coalescing
guarantee — and additionally persist the denormalized flag column for each
affected photo and rebroadcast the affected photo record(s) through the
application store dispatch. -/
theorem c9_flag_routing (photo : PhotoType) (photos : List PhotoType) (flag : Bool)
    (s : SysState) :
    ((toggleFlag photo s).pendingUpdates
        = (step s (.req photo (flagMutation (photo.flag == 0)))).pendingUpdates
      ∧ (toggleFlag photo s).fetchLog
        = (step s (.req photo (flagMutation (photo.flag == 0)))).fetchLog
      ∧ (toggleFlag photo s).saveFlagLog = s.saveFlagLog ++ [(photo.id, photo.flag == 0)]
      ∧ (toggleFlag photo s).dispatchLog
        = s.dispatchLog ++ [Dispatch.changePhotosFetched photo.id])
    ∧ ((setPhotosFlagged photos flag s).pendingUpdates
        = (execList s (photos.map fun p => Event.req p (flagMutation flag))).pendingUpdates
      ∧ (setPhotosFlagged photos flag s).fetchLog
        = (execList s (photos.map fun p => Event.req p (flagMutation flag))).fetchLog
      ∧ (setPhotosFlagged photos flag s).saveFlagLog
        = s.saveFlagLog ++ photos.map (fun p => (p.id, flag))
      ∧ (setPhotosFlagged photos flag s).dispatchLog
        = s.dispatchLog
          ++ [Dispatch.changePhotos (photos.map fun p => { p with flag := if flag then 1 else 0 })]) := by
  have hframe := step_req_frame s photo (flagMutation (photo.flag == 0))
  constructor
  · refine ⟨rfl, rfl, ?_, ?_⟩
    · show (step s (.req photo (flagMutation (photo.flag == 0)))).saveFlagLog
          ++ [(photo.id, photo.flag == 0)] = _
      rw [hframe.2.2.2]
    · show (step s (.req photo (flagMutation (photo.flag == 0)))).dispatchLog
          ++ [Dispatch.changePhotosFetched photo.id] = _
      rw [hframe.1]
  · unfold setPhotosFlagged
    rw [setPhotosFold]
    refine ⟨rfl, rfl, rfl, ?_⟩
    show (execList s (photos.map fun p => Event.req p (flagMutation flag))).dispatchLog ++ _ = _
    rw [execList_reqs_dispatchLog]

end Ansel

namespace AnselDetail

/-- Claim C10: for every detail state and CHANGE_PHOTOWORK action, when the
action's photoId differs from the shown photo (or the state is null) the
reducer returns the state unchanged; when it matches, the reducer replaces
only the photoWork field with the payload's PhotoWork (the source takes a
fresh shallow copy of the payload, which in this value-level embedding is
the payload's value) and leaves showDiff, fetchState, sectionId,
photoIndex, photoId and photoDetail unchanged. -/
theorem c10_detail_change_photowork (state : Option DetailState) (photoId : Nat)
    (photoWork : Ansel.PhotoWork) :
    ((state = none ∨ ∃ st, state = some st ∧ st.currentPhoto.photoId ≠ photoId) →
        detail state (.changePhotoWork photoId photoWork) = state)
    ∧ (∀ st, state = some st → st.currentPhoto.photoId = photoId →
        ∃ st2, detail state (.changePhotoWork photoId photoWork) = some st2
          ∧ st2.currentPhoto.photoWork = some photoWork
          ∧ st2.showDiff = st.showDiff
          ∧ st2.currentPhoto.fetchState = st.currentPhoto.fetchState
          ∧ st2.currentPhoto.sectionId = st.currentPhoto.sectionId
          ∧ st2.currentPhoto.photoIndex = st.currentPhoto.photoIndex
          ∧ st2.currentPhoto.photoId = st.currentPhoto.photoId
          ∧ st2.currentPhoto.photoDetail = st.currentPhoto.photoDetail) := by
  constructor
  · rintro (rfl | ⟨st, rfl, hne⟩)
    · rfl
    · simp [detail, hne]
  · rintro st rfl heq
    refine ⟨{ st with currentPhoto := { st.currentPhoto with photoWork := some photoWork } },
      by simp [detail, heq], rfl, rfl, rfl, rfl, rfl, rfl, rfl⟩

end AnselDetail

namespace AnselWalker

theorem goodFile_mono {blacklist : List String} {dirName : String}
    {children children2 : List FSEntry} {p : String} (hsub : children ⊆ children2)
    (h : GoodFile blacklist dirName children p) : GoodFile blacklist dirName children2 p := by
  cases h with
  | here hf => exact GoodFile.here (hsub hf)
  | there hd hnb hsubp => exact GoodFile.there (hsub hd) hnb hsubp

theorem mem_walkChildren_goodFile (blacklist : List String) :
    ∀ (dirName : String) (children : List FSEntry) (p : String),
      p ∈ walkChildren blacklist dirName children → GoodFile blacklist dirName children p := by
  intro dirName children
  induction dirName, children using walkChildren.induct blacklist with
  | case1 dirName => intro p hp; simp [walkChildren] at hp
  | case2 dirName f rest ih =>
    intro p hp
    rw [walkChildren] at hp
    rcases List.mem_cons.mp hp with h1 | h2
    · subst h1
      exact GoodFile.here (List.mem_cons_self _ _)
    · exact goodFile_mono (List.subset_cons_self _ _) (ih p h2)
  | case3 dirName d cs rest ih1 ih2 =>
    intro p hp
    rw [walkChildren] at hp
    rcases List.mem_append.mp hp with h1 | h2
    · by_cases hb : pjoin dirName d ∈ blacklist
      · rw [if_pos hb] at h1
        simp at h1
      · rw [if_neg hb] at h1
        exact GoodFile.there (List.mem_cons_self _ _) hb (ih1 p h1)
    · exact goodFile_mono (List.subset_cons_self _ _) (ih2 p h2)

theorem file_mem_walkChildren {blacklist : List String} {dirName f : String} :
    ∀ {children : List FSEntry}, FSEntry.file f ∈ children →
      pjoin dirName f ∈ walkChildren blacklist dirName children := by
  intro children
  induction children with
  | nil => intro h; cases h
  | cons x rest ih =>
    intro h
    rcases List.mem_cons.mp h with h1 | h2
    · subst h1
      rw [walkChildren]
      exact List.mem_cons_self _ _
    · cases x with
      | file g =>
        rw [walkChildren]
        exact List.mem_cons_of_mem _ (ih h2)
      | dir d cs =>
        rw [walkChildren]
        exact List.mem_append_right _ (ih h2)

theorem dir_mem_walkChildren {blacklist : List String} {dirName d p : String}
    {cs : List FSEntry} :
    ∀ {children : List FSEntry}, FSEntry.dir d cs ∈ children →
      pjoin dirName d ∉ blacklist → p ∈ walkChildren blacklist (pjoin dirName d) cs →
      p ∈ walkChildren blacklist dirName children := by
  intro children
  induction children with
  | nil => intro h; cases h
  | cons x rest ih =>
    intro h hnb hp
    rcases List.mem_cons.mp h with h1 | h2
    · subst h1
      rw [walkChildren]
      refine List.mem_append_left _ ?_
      rw [if_neg hnb]
      exact hp
    · cases x with
      | file g =>
        rw [walkChildren]
        exact List.mem_cons_of_mem _ (ih h2 hnb hp)
      | dir d2 cs2 =>
        rw [walkChildren]
        exact List.mem_append_right _ (ih h2 hnb hp)

theorem goodFile_mem_walkChildren {blacklist : List String} :
    ∀ {dirName : String} {children : List FSEntry} {p : String},
      GoodFile blacklist dirName children p → p ∈ walkChildren blacklist dirName children := by
  intro dirName children p h
  induction h with
  | here hf => exact file_mem_walkChildren hf
  | there hd hnb _ ih => exact dir_mem_walkChildren hd hnb ih

/-- Claim C8: for every root directory, exclusion set and directory tree
with the root not excluded, the walker's result holds exactly the paths of
the regular files under the root that are reachable without passing
through a subdirectory whose path is in the exclusion set: every such file
path appears, and files under excluded directories are omitted. -/
theorem c8_walker_files (dirName : String) (blacklist : List String)
    (children : List FSEntry) (p : String) (hroot : dirName ∉ blacklist) :
    p ∈ (walker dirName blacklist children).getD []
      ↔ GoodFile blacklist dirName children p := by
  unfold walker
  rw [if_neg hroot]
  exact ⟨mem_walkChildren_goodFile blacklist dirName children p,
    goodFile_mem_walkChildren⟩

/-- Claim C8, witness: in the sample tree rooted at r with r/skip excluded,
the file path r/sub/b.jpg is in the walker's result exactly when it is a
non-excluded file of the tree. -/
theorem c8_walker_files_witness :
    ("r" ∉ blacklist0)
    ∧ ("r/sub/b.jpg" ∈ (walker "r" blacklist0 tree0).getD []
        ↔ GoodFile blacklist0 "r" tree0 "r/sub/b.jpg") :=
  ⟨by decide, c8_walker_files "r" blacklist0 tree0 "r/sub/b.jpg" (by decide)⟩

end AnselWalker

namespace AnselData

/-- Claim C7, evaluated at the failing input: running the CHANGE_PHOTOS
branch with a trashed update on a one-section state splices the photoIds
array that the previous state's section still references — the heap cell
at the previous section's photoIds address changes from the original [7]
to [] — so the reducer mutates part of its input state instead of leaving
the previous state's photoIds arrays unchanged. -/
theorem c7_change_photos_mutates_prev_photoIds :
    (sectionsChangePhotos heap0 st0 [photoT] (some true)).1 0 = []
    ∧ heap0 0 = [7] := by
  constructor
  · rfl
  · rfl

end AnselData
